import Mathlib

/-!
Verification development for the resumable ingestion pipeline
(`generate_summaries.py`, `generate_questions.py`, `index_documents.py`).

Strings are modelled as lists of characters (`Str`), so that Python's
`str.strip` / `str.lstrip(chars)` and UTF-8 byte lengths can be stated
directly.  Each Python construct used by the claims is embedded as an
executable Lean function; the module-level scripts become explicit folds
over the work lists, with an event trace recording external-capability
calls and checkpoint flushes.
-/

namespace Blueprint


/-- Character-list model of Python strings. -/
abbrev Str := List Char

/-- Python `str.strip()`: drop whitespace from both ends. -/
def pyStrip (s : Str) : Str :=
  ((s.dropWhile Char.isWhitespace).reverse.dropWhile Char.isWhitespace).reverse

/-- The character set of `lstrip("-•0123456789. ")` in
`generate_questions_from_summary`. -/
def markerChars : Str :=
  ['-', '•', '0', '1', '2', '3', '4', '5', '6', '7', '8', '9', '.', ' ']

/-- Python `str.lstrip("-•0123456789. ")`: drop the longest prefix of
characters belonging to `markerChars`. -/
def pyLstripMarkers (s : Str) : Str :=
  s.dropWhile (fun c => markerChars.contains c)

/-- Python `list(dict.fromkeys(xs))`: de-duplicate keeping the first
occurrence of each element, preserving order.  `seen` accumulates the
elements already emitted. -/
def dedupFirstAux (seen : List Str) : List Str → List Str
  | [] => []
  | x :: xs =>
    if seen.contains x then dedupFirstAux seen xs
    else x :: dedupFirstAux (x :: seen) xs

/-- Normalization of raw generator output in `generate_questions_from_summary`
(lines 82–84): keep non-blank lines, strip / de-bullet / re-strip each,
filter to length `> 10`, de-duplicate keeping first occurrences, truncate
to `n`. -/
def normalizeQuestions (rawLines : List Str) (n : Nat) : List Str :=
  let stripped := (rawLines.filter (fun q => !(pyStrip q).isEmpty)).map
    (fun q => pyStrip (pyLstripMarkers (pyStrip q)))
  (dedupFirstAux [] (stripped.filter (fun q => decide (10 < q.length)))).take n

/-- The `chunked` generator of `index_documents.py` (lines 49–57), as an
accumulator recursion: `buf` is the buffer being filled, a group is
emitted as soon as its size reaches `n`, and a non-empty trailing buffer
is emitted at the end. -/
def chunkedGo {α : Type} (n : Nat) : List α → List α → List (List α)
  | buf, [] => if buf.isEmpty then [] else [buf]
  | buf, x :: xs =>
    if n ≤ (buf ++ [x]).length then (buf ++ [x]) :: chunkedGo n [] xs
    else chunkedGo n (buf ++ [x]) xs

/-- `chunked(xs, n)` from `index_documents.py`. -/
def chunked {α : Type} (xs : List α) (n : Nat) : List (List α) :=
  chunkedGo n [] xs

/-! ### The questions pipeline driver (`generate_questions.py`) -/

/-- Events observable during a `generate_all_questions` run: an invocation
of the external text generator for a given `doc_id`, and a durable
checkpoint flush (`pickle.dump` of the questions backup). -/
inductive QEvent : Type
  | genCall (docId : Str)
  | flush
deriving DecidableEq

/-- The questions checkpoint ledger `questions_out`: parallel lists
`doc_id` and `questions`. -/
structure QLedger where
  doc_id : List Str
  questions : List (List Str)
deriving DecidableEq

/-- Driver state of `generate_all_questions`: the in-memory ledger, the
three counters, and the trace of external calls and flushes. -/
structure QState where
  ledger : QLedger
  processed : Nat
  failed : Nat
  skipped : Nat
  events : List QEvent
deriving DecidableEq

/-- `backup_every = 20` in `generate_questions.py`. -/
def backupEvery : Nat := 20

/-- The gate of line 114: `summary and len(summary.strip()) > 20`. -/
def qCallGen (summary : Str) : Bool :=
  !summary.isEmpty && decide (20 < (pyStrip summary).length)

/-- The question list the per-unit body ends up with: the external
generator oracle `gen` (modelling `generate_questions_from_summary`,
normalization and catch-all handler included) is invoked only when
`qCallGen` holds; otherwise `questions` stays `[]`. -/
def qGenResult (gen : Str → Str → List Str) (u : Str × Str) : List Str :=
  if qCallGen u.2 then gen u.1 u.2 else []

/-- A unit is appended to the ledger exactly when it was not already in
the checkpoint at load time and the per-unit body produced a non-empty
question list. -/
def qSucceeds (pset : List Str) (gen : Str → Str → List Str)
    (u : Str × Str) : Bool :=
  !(pset.contains u.1) && !(qGenResult gen u).isEmpty

/-- One iteration of the loop of `generate_all_questions` (lines 98–139)
on a unit `(doc_id, summary)`: skip when the id was already processed at
load time; otherwise invoke the generator when the summary is non-empty
and longer than 20 characters after stripping, append one entry to each
ledger list on success, count a failure otherwise, and perform the
periodic backup when `processed` is a positive multiple of
`backup_every`. -/
def qStep (pset : List Str) (gen : Str → Str → List Str) (s : QState)
    (u : Str × Str) : QState :=
  if pset.contains u.1 then { s with skipped := s.skipped + 1 }
  else
    let qs := qGenResult gen u
    let s1 :=
      if qCallGen u.2 then { s with events := s.events ++ [QEvent.genCall u.1] }
      else s
    let s2 :=
      if qs.isEmpty then { s1 with failed := s1.failed + 1 }
      else { s1 with
        ledger := ⟨s1.ledger.doc_id ++ [u.1], s1.ledger.questions ++ [qs]⟩,
        processed := s1.processed + 1 }
    if 0 < s2.processed ∧ s2.processed % backupEvery = 0 then
      { s2 with events := s2.events ++ [QEvent.flush] }
    else s2

/-- `generate_all_questions` as a fold over the work units (pairs of
`doc_id` and `summary` read from the summaries backup), starting from the
loaded ledger `init` — the skip set is fixed at load time as
`set(questions_out["doc_id"])` — followed by the final backup of lines
142–143. -/
def generateAllQuestions (init : QLedger) (gen : Str → Str → List Str)
    (units : List (Str × Str)) : QState :=
  let sf := units.foldl (qStep init.doc_id gen) ⟨init, 0, 0, 0, []⟩
  { sf with events := sf.events ++ [QEvent.flush] }

/-! ### The summaries pipeline driver (`generate_summaries.py`) -/

/-- Events observable during an `extract_data` run: a per-unit processing
attempt (download + summarize) for a file id, and a durable checkpoint
flush (`pickle.dump` of the summaries backup). -/
inductive SEvent : Type
  | procCall (docId : Str)
  | flush
deriving DecidableEq

/-- The summaries checkpoint ledger `out`: parallel lists `doc_id`,
`summary` and `chunks` (each chunk kept as its text). -/
structure SLedger where
  doc_id : List Str
  summary : List Str
  chunks : List (List Str)
deriving DecidableEq

/-- Driver state of `extract_data`. -/
structure SState where
  ledger : SLedger
  failedIds : List Str
  processed : Nat
  skipped : Nat
  events : List SEvent
deriving DecidableEq

/-- `backup_every = 10` in `generate_summaries.py`. -/
def backupEveryS : Nat := 10

/-- A unit is appended to the summaries ledger exactly when it is not in
the load-time skip set and per-unit processing succeeds. -/
def sSucceeds (pset : List Str) (proc : Str → Option (Str × List Str))
    (fid : Str) : Bool :=
  !(pset.contains fid) && (proc fid).isSome

/-- One iteration of the loop of `extract_data` (lines 284–341) on a file
id: skip when already processed at load time; otherwise attempt the unit
(`proc` models download + summarize, `none` is the caught per-unit
exception), appending one entry to each of the three ledger lists on
success; the `except` branch `continue`s past the periodic backup, so the
periodic flush only follows a success. -/
def sStep (pset : List Str) (proc : Str → Option (Str × List Str))
    (s : SState) (fid : Str) : SState :=
  if pset.contains fid then { s with skipped := s.skipped + 1 }
  else
    let s1 := { s with events := s.events ++ [SEvent.procCall fid] }
    match proc fid with
    | none => { s1 with failedIds := s1.failedIds ++ [fid] }
    | some r =>
      let s2 := { s1 with
        ledger := ⟨s1.ledger.doc_id ++ [fid], s1.ledger.summary ++ [r.1],
          s1.ledger.chunks ++ [r.2]⟩,
        processed := s1.processed + 1 }
      if 0 < s2.processed ∧ s2.processed % backupEveryS = 0 then
        { s2 with events := s2.events ++ [SEvent.flush] }
      else s2

/-- `extract_data` as a fold over the file ids, starting from the loaded
ledger `init` (the skip set is fixed at load time), followed by the final
backup of lines 344–345. -/
def extractData (init : SLedger) (proc : Str → Option (Str × List Str))
    (fileIds : List Str) : SState :=
  let sf := fileIds.foldl (sStep init.doc_id proc) ⟨init, [], 0, 0, []⟩
  { sf with events := sf.events ++ [SEvent.flush] }

/-- Well-formedness of the questions ledger: the parallel lists have equal
lengths. -/
def qWF (l : QLedger) : Prop := l.doc_id.length = l.questions.length

/-- Well-formedness of the summaries ledger: the three parallel lists have
equal lengths. -/
def sWF (l : SLedger) : Prop :=
  l.doc_id.length = l.summary.length ∧ l.doc_id.length = l.chunks.length

/-! ### The index writer (`index_documents.py`) -/

/-- Embedding vectors (their numeric content is irrelevant to the claims). -/
abbrev Vec := List Int

/-- `MAX_DOC_BYTES = 3_500_000` in `index_documents.py`. -/
def MAX_DOC_BYTES : Nat := 3500000

/-- `BATCH_EMB = 128` in `index_documents.py`. -/
def BATCH_EMB : Nat := 128

/-- `BATCH_UPSERT = 200` in `index_documents.py`. -/
def BATCH_UPSERT : Nat := 200

/-- UTF-8 byte length of a string: Python `len(s.encode("utf-8"))`. -/
def utf8Len (s : Str) : Nat := (s.map Char.utf8Size).sum

/-- A vector-index record as assembled by the script: deterministic id,
optional vector (`values = None` until the embedding loop fills it in),
and the text payload stored in the metadata. -/
structure IxRecord where
  id : Str
  values : Option Vec
  metaText : Str
deriving DecidableEq

/-- Deterministic record id of a summary artifact: `f"{doc_id}::summary"`
(line 236). -/
def recordIdS (d : Str) : Str := d ++ "::summary".toList

/-- Deterministic record id of a question-list artifact:
`f"{doc_id}::questions"` (line 180). -/
def recordIdQ (d : Str) : Str := d ++ "::questions".toList

/-- Deterministic record id of a chunk artifact: `f"{doc_id}::chunk::{i}"`
(line 297). -/
def recordIdC (d : Str) (i : Nat) : Str :=
  d ++ "::chunk::".toList ++ (Nat.repr i).toList

/-- Output of a record-building loop: texts to embed, records (vectors
still unset), skip count. -/
structure BuildOut where
  texts : List Str
  records : List IxRecord
  skipped : Nat
deriving DecidableEq

/-- Whether a `(doc_id, summary)` pair passes both the emptiness check and
the `MAX_DOC_BYTES` ceiling of lines 209–217. -/
def keepS (u : Str × Str) : Bool :=
  !(pyStrip u.2).isEmpty && !decide (MAX_DOC_BYTES < utf8Len (pyStrip u.2))

/-- One iteration of the summaries record-building loop (lines 208–239). -/
def buildStepS (acc : BuildOut) (u : Str × Str) : BuildOut :=
  let text := pyStrip u.2
  if text.isEmpty then { acc with skipped := acc.skipped + 1 }
  else if MAX_DOC_BYTES < utf8Len text then { acc with skipped := acc.skipped + 1 }
  else { acc with
    texts := acc.texts ++ [text],
    records := acc.records ++ [⟨recordIdS u.1, none, text⟩] }

/-- The summaries record-building loop over
`zip(s_data["doc_id"], s_data["summary"])`. -/
def buildSummaryRecords (docs : List (Str × Str)) : BuildOut :=
  docs.foldl buildStepS ⟨[], [], 0⟩

/-- Vector assignment within one embedding batch (lines 242–246): the
`i`-th record of the batch receives the `i`-th returned vector; `zip`
truncation leaves any surplus records untouched. -/
def assignVecs (batch : List (Str × IxRecord)) (vecs : List Vec) :
    List IxRecord :=
  (batch.zipWith (fun p v => { p.2 with values := some v }) vecs)
    ++ (batch.drop vecs.length).map Prod.snd

/-- One step of the embedding loop: once a batch has failed the error is
final (the script has died); otherwise `embed_documents` is called on the
batch texts and either fails or yields the batch vectors. -/
def embedStep (embed : List Str → Except Unit (List Vec))
    (acc : Except Unit (List IxRecord)) (batch : List (Str × IxRecord)) :
    Except Unit (List IxRecord) :=
  match acc with
  | .error e => .error e
  | .ok recs =>
    match embed (batch.map Prod.fst) with
    | .error e => .error e
    | .ok vecs => .ok (recs ++ assignVecs batch vecs)

/-- The embedding loop: one external call per `BATCH_EMB`-sized batch of
`(text, record)` pairs; an exception from `embed_documents` propagates
(modelled by `Except.error`). -/
def embedAll (embed : List Str → Except Unit (List Vec))
    (pairs : List (Str × IxRecord)) : Except Unit (List IxRecord) :=
  (chunked pairs BATCH_EMB).foldl (embedStep embed) (.ok [])

/-- Upsert of a single keyed record: overwrite the entry at `r.id`. -/
def upsert1 (m : Str → Option IxRecord) (r : IxRecord) :
    Str → Option IxRecord :=
  fun k => if k = r.id then some r else m k

/-- Upsert of a record list in order (later records with the same id
overwrite earlier ones), as the index service's keyed upsert. -/
def upsertAll (m : Str → Option IxRecord) (recs : List IxRecord) :
    Str → Option IxRecord :=
  recs.foldl upsert1 m

/-- Result of the summaries indexing stage: the records upserted in order,
the resulting collection contents, the uploaded count and the skipped
count. -/
structure IxResult where
  upserted : List IxRecord
  collection : Str → Option IxRecord
  uploaded : Nat
  skipped : Nat

/-- The summaries indexing stage of `index_documents.py` (lines 204–254):
build records with the skip checks, embed batch-by-batch (a batch failure
aborts the whole stage), then upsert everything in `BATCH_UPSERT`-sized
batches into an initially empty collection. -/
def indexSummariesRun (embed : List Str → Except Unit (List Vec))
    (docs : List (Str × Str)) : Except Unit IxResult :=
  match embedAll embed
      ((buildSummaryRecords docs).texts.zip (buildSummaryRecords docs).records) with
  | .error e => .error e
  | .ok recs =>
    .ok ⟨(chunked recs BATCH_UPSERT).join,
      (chunked recs BATCH_UPSERT).foldl (fun m batch => upsertAll m batch)
        (fun _ => none),
      ((chunked recs BATCH_UPSERT).map List.length).sum,
      (buildSummaryRecords docs).skipped⟩

/-- Discriminator for `Except` used to transport computed success past a
`cases`. -/
def exceptOk {ε α : Type} : Except ε α → Bool
  | .ok _ => true
  | .error _ => false

/-- Concatenating the groups of `chunkedGo` recovers the buffer followed by
the remaining input, for any `n`. -/
lemma chunkedGo_join {α : Type} (n : Nat) :
    ∀ (xs buf : List α), (chunkedGo n buf xs).join = buf ++ xs := by
  intro xs
  induction xs with
  | nil =>
    intro buf
    by_cases h : buf.isEmpty
    · simp [chunkedGo, h, List.isEmpty_iff.mp h]
    · simp [chunkedGo, h]
  | cons x xs ih =>
    intro buf
    by_cases h : n ≤ buf.length + 1
    · simp [chunkedGo, h, ih]
    · simp [chunkedGo, h, ih]

/-- Concatenating the groups of `chunked` recovers the input. -/
lemma chunked_join {α : Type} (xs : List α) (n : Nat) :
    (chunked xs n).join = xs := by
  simpa using chunkedGo_join n xs []

/-- Every group emitted by `chunkedGo` is non-empty and, when `1 ≤ n` and
the buffer is strictly below `n`, of size at most `n`. -/
lemma chunkedGo_sizes {α : Type} (n : Nat) (hn : 1 ≤ n) :
    ∀ (xs buf : List α), buf.length < n →
      ∀ g ∈ chunkedGo n buf xs, 1 ≤ g.length ∧ g.length ≤ n := by
  intro xs
  induction xs with
  | nil =>
    intro buf hbuf g hg
    by_cases h : buf.isEmpty
    · simp [chunkedGo, h] at hg
    · simp [chunkedGo, h] at hg
      subst hg
      refine ⟨?_, Nat.le_of_lt hbuf⟩
      have hne : g ≠ [] := by simpa using h
      exact List.length_pos.mpr hne
  | cons x xs ih =>
    intro buf hbuf g hg
    by_cases h : n ≤ buf.length + 1
    · simp only [chunkedGo, List.length_append, List.length_cons,
        List.length_nil, Nat.zero_add, if_pos h, List.mem_cons] at hg
      rcases hg with hg | hg
      · subst hg
        refine ⟨by simp, ?_⟩
        simp only [List.length_append, List.length_cons, List.length_nil]
        omega
      · exact ih [] (by simpa using hn) g hg
    · simp only [chunkedGo, List.length_append, List.length_cons,
        List.length_nil, Nat.zero_add, if_neg h] at hg
      have hlt : (buf ++ [x]).length < n := by
        simp only [List.length_append, List.length_cons, List.length_nil]
        omega
      exact ih (buf ++ [x]) hlt g hg

/-- Group sizes of `chunked` lie in `[1, n]` whenever `1 ≤ n`. -/
lemma chunked_sizes {α : Type} (xs : List α) (n : Nat) (hn : 1 ≤ n) :
    ∀ g ∈ chunked xs n, 1 ≤ g.length ∧ g.length ≤ n :=
  chunkedGo_sizes n hn xs [] (by simpa using hn)

/-- Membership in a group of `chunked` implies membership in the input. -/
lemma chunked_mem_subset {α : Type} {xs : List α} {n : Nat} {g : List α}
    (hg : g ∈ chunked xs n) : ∀ a ∈ g, a ∈ xs := by
  intro a ha
  have : a ∈ (chunked xs n).join := List.mem_join.mpr ⟨g, hg, ha⟩
  simpa [chunked_join] using this

lemma qStep_skipped (pset : List Str) (gen : Str → Str → List Str)
    (s : QState) (u : Str × Str) :
    (qStep pset gen s u).skipped
      = s.skipped + (if pset.contains u.1 then 1 else 0) := by
  simp only [qStep]
  split_ifs <;> simp

lemma qStep_processed (pset : List Str) (gen : Str → Str → List Str)
    (s : QState) (u : Str × Str) :
    (qStep pset gen s u).processed
      = s.processed + (if qSucceeds pset gen u then 1 else 0) := by
  simp only [qStep, qSucceeds]
  split_ifs <;> simp_all

lemma qStep_failed (pset : List Str) (gen : Str → Str → List Str)
    (s : QState) (u : Str × Str) :
    (qStep pset gen s u).failed
      = s.failed
        + (if !(pset.contains u.1) && (qGenResult gen u).isEmpty then 1 else 0) := by
  simp only [qStep]
  split_ifs <;> simp_all

lemma qStep_doc_id (pset : List Str) (gen : Str → Str → List Str)
    (s : QState) (u : Str × Str) :
    (qStep pset gen s u).ledger.doc_id
      = s.ledger.doc_id ++ (if qSucceeds pset gen u then [u.1] else []) := by
  simp only [qStep, qSucceeds]
  split_ifs <;> simp_all

lemma qStep_questions (pset : List Str) (gen : Str → Str → List Str)
    (s : QState) (u : Str × Str) :
    (qStep pset gen s u).ledger.questions
      = s.ledger.questions
        ++ (if qSucceeds pset gen u then [qGenResult gen u] else []) := by
  simp only [qStep, qSucceeds]
  split_ifs <;> simp_all

lemma qStep_events_genCall (pset : List Str) (gen : Str → Str → List Str)
    (s : QState) (u : Str × Str) (d : Str) :
    (QEvent.genCall d ∈ (qStep pset gen s u).events)
      ↔ (QEvent.genCall d ∈ s.events
          ∨ (pset.contains u.1 = false ∧ qCallGen u.2 = true ∧ u.1 = d)) := by
  simp only [qStep]
  split_ifs <;> simp_all <;> tauto

lemma qStep_events_genCall_count (pset : List Str) (gen : Str → Str → List Str)
    (s : QState) (u : Str × Str) (d : Str) :
    (qStep pset gen s u).events.count (QEvent.genCall d)
      = s.events.count (QEvent.genCall d)
        + (if !(pset.contains u.1) && qCallGen u.2 && (u.1 = d) then 1 else 0) := by
  simp only [qStep]
  split_ifs <;>
    simp_all [List.count_append, List.count_cons, List.count_nil, beq_iff_eq]

lemma qRun_skipped (pset : List Str) (gen : Str → Str → List Str)
    (us : List (Str × Str)) :
    ∀ s : QState, (us.foldl (qStep pset gen) s).skipped
      = s.skipped + us.countP (fun u => pset.contains u.1) := by
  induction us with
  | nil => intro s; simp
  | cons u us ih =>
    intro s
    rw [List.foldl_cons, ih, qStep_skipped, List.countP_cons]
    split_ifs <;> omega

lemma qRun_processed (pset : List Str) (gen : Str → Str → List Str)
    (us : List (Str × Str)) :
    ∀ s : QState, (us.foldl (qStep pset gen) s).processed
      = s.processed + us.countP (qSucceeds pset gen) := by
  induction us with
  | nil => intro s; simp
  | cons u us ih =>
    intro s
    rw [List.foldl_cons, ih, qStep_processed, List.countP_cons]
    split_ifs <;> omega

lemma qRun_failed (pset : List Str) (gen : Str → Str → List Str)
    (us : List (Str × Str)) :
    ∀ s : QState, (us.foldl (qStep pset gen) s).failed
      = s.failed
        + us.countP (fun u => !(pset.contains u.1) && (qGenResult gen u).isEmpty) := by
  induction us with
  | nil => intro s; simp
  | cons u us ih =>
    intro s
    rw [List.foldl_cons, ih, qStep_failed, List.countP_cons]
    split_ifs <;> omega

lemma qRun_doc_id (pset : List Str) (gen : Str → Str → List Str)
    (us : List (Str × Str)) :
    ∀ s : QState, (us.foldl (qStep pset gen) s).ledger.doc_id
      = s.ledger.doc_id ++ (us.filter (qSucceeds pset gen)).map Prod.fst := by
  induction us with
  | nil => intro s; simp
  | cons u us ih =>
    intro s
    rw [List.foldl_cons, ih, qStep_doc_id, List.filter_cons]
    by_cases h : qSucceeds pset gen u <;> simp [h]

lemma qRun_questions (pset : List Str) (gen : Str → Str → List Str)
    (us : List (Str × Str)) :
    ∀ s : QState, (us.foldl (qStep pset gen) s).ledger.questions
      = s.ledger.questions
        ++ (us.filter (qSucceeds pset gen)).map (qGenResult gen) := by
  induction us with
  | nil => intro s; simp
  | cons u us ih =>
    intro s
    rw [List.foldl_cons, ih, qStep_questions, List.filter_cons]
    by_cases h : qSucceeds pset gen u <;> simp [h]

lemma qRun_events_genCall (pset : List Str) (gen : Str → Str → List Str)
    (us : List (Str × Str)) (d : Str) :
    ∀ s : QState,
      QEvent.genCall d ∈ (us.foldl (qStep pset gen) s).events
        ↔ (QEvent.genCall d ∈ s.events
            ∨ ∃ u ∈ us, pset.contains u.1 = false ∧ qCallGen u.2 = true ∧ u.1 = d) := by
  induction us with
  | nil => intro s; simp
  | cons u us ih =>
    intro s
    rw [List.foldl_cons, ih]
    rw [qStep_events_genCall]
    constructor
    · rintro ((h | h) | h)
      · exact Or.inl h
      · exact Or.inr ⟨u, by simp, h⟩
      · rcases h with ⟨v, hv, hp⟩
        exact Or.inr ⟨v, by simp [hv], hp⟩
    · rintro (h | ⟨v, hv, hp⟩)
      · exact Or.inl (Or.inl h)
      · rcases List.mem_cons.mp hv with rfl | hv
        · exact Or.inl (Or.inr hp)
        · exact Or.inr ⟨v, hv, hp⟩

lemma qRun_events_genCall_count (pset : List Str) (gen : Str → Str → List Str)
    (us : List (Str × Str)) (d : Str) :
    ∀ s : QState,
      (us.foldl (qStep pset gen) s).events.count (QEvent.genCall d)
        = s.events.count (QEvent.genCall d)
          + us.countP (fun u => !(pset.contains u.1) && qCallGen u.2 && (u.1 = d)) := by
  induction us with
  | nil => intro s; simp
  | cons u us ih =>
    intro s
    rw [List.foldl_cons, ih, qStep_events_genCall_count, List.countP_cons]
    split_ifs <;> omega

lemma countP_partition {α : Type} (p q r : α → Bool) (l : List α)
    (h : ∀ a ∈ l,
      ((if p a then 1 else 0) + (if q a then 1 else 0) : Nat)
        = if r a then 1 else 0) :
    l.countP p + l.countP q = l.countP r := by
  induction l with
  | nil => simp
  | cons a l ih =>
    simp only [List.countP_cons]
    have ha := h a (by simp)
    have hl := ih (fun b hb => h b (by simp [hb]))
    omega

lemma countP_contains_eq_length (pset : List Str) (us : List (Str × Str))
    (hp : pset.Nodup) (hu : (us.map Prod.fst).Nodup)
    (hsub : ∀ d ∈ pset, d ∈ us.map Prod.fst) :
    us.countP (fun u => pset.contains u.1) = pset.length := by
  have h1 : us.countP (fun u => pset.contains u.1)
      = (us.map Prod.fst).countP (fun x => pset.contains x) := by
    rw [List.countP_map]; rfl
  rw [h1, List.countP_eq_length_filter]
  refine ((List.perm_ext_iff_of_nodup (hu.filter _) hp).mpr ?_).length_eq
  intro a
  simp only [List.mem_filter]
  constructor
  · rintro ⟨_, hc⟩
    simpa using hc
  · intro ha
    exact ⟨hsub a ha, by simpa using ha⟩

lemma countP_not_contains (pset : List Str) (us : List (Str × Str)) :
    us.countP (fun u => !(pset.contains u.1))
      = us.length - us.countP (fun u => pset.contains u.1) := by
  have h := countP_partition (fun u => pset.contains u.1)
    (fun u : Str × Str => !(pset.contains u.1)) (fun _ => true) us
    (by intro a _; by_cases hc : a.1 ∈ pset <;> simp [hc])
  have htrue : us.countP (fun _ => true) = us.length := by simp
  omega

lemma countP_decide_le_one {α : Type} [DecidableEq α] (l : List α)
    (h : l.Nodup) (d : α) : l.countP (fun x => decide (x = d)) ≤ 1 := by
  induction l with
  | nil => simp
  | cons a l ih =>
    rw [List.countP_cons]
    rcases List.nodup_cons.mp h with ⟨hal, hl⟩
    by_cases had : a = d
    · subst had
      have h0 : l.countP (fun x => decide (x = a)) = 0 := by
        rw [List.countP_eq_zero]
        intro b hb
        simp only [decide_eq_true_eq]
        intro hba
        exact hal (hba ▸ hb)
      simp [h0]
    · have := ih hl
      simp only [decide_eq_true_eq, had, if_false]
      omega

lemma qAttempted_eq (pset : List Str) (gen : Str → Str → List Str)
    (us : List (Str × Str)) :
    us.countP (qSucceeds pset gen)
        + us.countP (fun u => !(pset.contains u.1) && (qGenResult gen u).isEmpty)
      = us.countP (fun u => !(pset.contains u.1)) := by
  apply countP_partition
  intro u _
  by_cases hc : u.1 ∈ pset <;> cases he : (qGenResult gen u).isEmpty <;>
    simp [qSucceeds, hc, he]

/-- Claim C1: for every run started with a checkpoint store already holding
the `N` ids `init.doc_id` out of the `M` work units, the driver skips
exactly those `N` units (never invoking the generator for them), attempts
each of the remaining `M − N` units exactly once (at most one generator
call per doc id), and the final store consists of the original `N` entries
extended by exactly one entry per newly succeeded unit, so it has
`N + k ≤ M` entries. -/
theorem C1_resume_contract (init : QLedger) (gen : Str → Str → List Str)
    (units : List (Str × Str))
    (hinit : init.doc_id.Nodup)
    (hunits : (units.map Prod.fst).Nodup)
    (hsub : ∀ d ∈ init.doc_id, d ∈ units.map Prod.fst) :
    (generateAllQuestions init gen units).skipped = init.doc_id.length
    ∧ (generateAllQuestions init gen units).processed
        + (generateAllQuestions init gen units).failed
      = units.length - init.doc_id.length
    ∧ (∀ d ∈ init.doc_id,
        QEvent.genCall d ∉ (generateAllQuestions init gen units).events)
    ∧ (∀ d : Str,
        (generateAllQuestions init gen units).events.count (QEvent.genCall d) ≤ 1)
    ∧ (generateAllQuestions init gen units).ledger.doc_id.length
      = init.doc_id.length + (generateAllQuestions init gen units).processed
    ∧ init.doc_id <+: (generateAllQuestions init gen units).ledger.doc_id
    ∧ (generateAllQuestions init gen units).processed
      ≤ units.length - init.doc_id.length := by
  have hskip : (generateAllQuestions init gen units).skipped
      = units.countP (fun u => init.doc_id.contains u.1) := by
    simp [generateAllQuestions, qRun_skipped]
  have hproc : (generateAllQuestions init gen units).processed
      = units.countP (qSucceeds init.doc_id gen) := by
    simp [generateAllQuestions, qRun_processed]
  have hfail : (generateAllQuestions init gen units).failed
      = units.countP
          (fun u => !(init.doc_id.contains u.1) && (qGenResult gen u).isEmpty) := by
    simp [generateAllQuestions, qRun_failed]
  have hdoc : (generateAllQuestions init gen units).ledger.doc_id
      = init.doc_id ++ (units.filter (qSucceeds init.doc_id gen)).map Prod.fst := by
    simp [generateAllQuestions, qRun_doc_id]
  have hN : units.countP (fun u => init.doc_id.contains u.1) = init.doc_id.length :=
    countP_contains_eq_length init.doc_id units hinit hunits hsub
  have hMN := countP_not_contains init.doc_id units
  have hatt := qAttempted_eq init.doc_id gen units
  have hcount : units.countP (fun u => init.doc_id.contains u.1) ≤ units.length :=
    List.countP_le_length _
  refine ⟨?_, ?_, ?_, ?_, ?_, ?_, ?_⟩
  · rw [hskip, hN]
  · rw [hproc, hfail, hatt, hMN, hN]
  · intro d hd hmem
    have : QEvent.genCall d ∈
        (units.foldl (qStep init.doc_id gen) ⟨init, 0, 0, 0, []⟩).events := by
      have hev : (generateAllQuestions init gen units).events
          = (units.foldl (qStep init.doc_id gen) ⟨init, 0, 0, 0, []⟩).events
            ++ [QEvent.flush] := by
        simp [generateAllQuestions]
      rw [hev] at hmem
      simpa using hmem
    rcases (qRun_events_genCall init.doc_id gen units d _).mp this with h | ⟨u, _, hc, _, hud⟩
    · simp at h
    · rw [hud] at hc
      have : d ∈ init.doc_id := hd
      simp [List.contains_iff_exists_mem_beq] at hc
      exact absurd hd (by simpa using hc)
  · intro d
    have hev : (generateAllQuestions init gen units).events
        = (units.foldl (qStep init.doc_id gen) ⟨init, 0, 0, 0, []⟩).events
          ++ [QEvent.flush] := by
      simp [generateAllQuestions]
    rw [hev, List.count_append]
    have h0 : List.count (QEvent.genCall d) [QEvent.flush] = 0 := by
      simp [List.count_cons]
    rw [h0, Nat.add_zero, qRun_events_genCall_count]
    have h1 : (⟨init, 0, 0, 0, []⟩ : QState).events.count (QEvent.genCall d) = 0 := by
      simp
    rw [h1, Nat.zero_add]
    have h2 : units.countP
          (fun u => !(init.doc_id.contains u.1) && qCallGen u.2 && (u.1 = d))
        ≤ units.countP (fun u => decide (u.1 = d)) := by
      apply List.countP_mono_left
      intro u _ hu
      simp only [Bool.and_eq_true, decide_eq_true_eq] at hu
      simpa using hu.2
    have h3 : units.countP (fun u => decide (u.1 = d))
        = (units.map Prod.fst).countP (fun x => decide (x = d)) := by
      rw [List.countP_map]; rfl
    have h4 : (units.map Prod.fst).countP (fun x => decide (x = d)) ≤ 1 :=
      countP_decide_le_one (units.map Prod.fst) hunits d
    omega
  · rw [hdoc, hproc, List.length_append, List.length_map,
      List.countP_eq_length_filter]
  · rw [hdoc]
    exact List.prefix_append _ _
  · rw [hproc, ← hN, ← hMN]
    have : units.countP (qSucceeds init.doc_id gen)
        ≤ units.countP (fun u => !(init.doc_id.contains u.1)) := by
      apply List.countP_mono_left
      intro u _ hu
      simp only [qSucceeds, Bool.and_eq_true] at hu
      exact hu.1
    omega

/-- Witness for C1: one already-checkpointed unit `A`, one fresh unit `B`
with a long summary, a generator that returns one question: the run skips
exactly one unit. -/
theorem C1_resume_contract_witness :
    (generateAllQuestions ⟨["A".toList], [["q".toList]]⟩
      (fun _ _ => ["a generated question!".toList])
      [("A".toList, "hi".toList),
       ("B".toList, "a sufficiently long summary here".toList)]).skipped = 1 := by
  have h := C1_resume_contract ⟨["A".toList], [["q".toList]]⟩
    (fun _ _ => ["a generated question!".toList])
    [("A".toList, "hi".toList),
     ("B".toList, "a sufficiently long summary here".toList)]
    (by decide) (by decide) (by decide)
  simpa using h.1

lemma getLast?_append_singleton {α : Type} (l : List α) (a : α) :
    (l ++ [a]).getLast? = some a := by
  simp [List.getLast?_append]

lemma sStep_doc_id (pset : List Str) (proc : Str → Option (Str × List Str))
    (s : SState) (fid : Str) :
    (sStep pset proc s fid).ledger.doc_id
      = s.ledger.doc_id ++ (if sSucceeds pset proc fid then [fid] else []) := by
  by_cases hc : fid ∈ pset
  · simp [sStep, sSucceeds, hc]
  · cases hp : proc fid with
    | none => simp [sStep, sSucceeds, hc, hp]
    | some r =>
      by_cases hb : (s.processed + 1) % backupEveryS = 0 <;>
        simp [sStep, sSucceeds, hc, hp, hb]

lemma sStep_summary (pset : List Str) (proc : Str → Option (Str × List Str))
    (s : SState) (fid : Str) :
    (sStep pset proc s fid).ledger.summary
      = s.ledger.summary
        ++ (if sSucceeds pset proc fid
            then [((proc fid).map Prod.fst).getD []] else []) := by
  by_cases hc : fid ∈ pset
  · simp [sStep, sSucceeds, hc]
  · cases hp : proc fid with
    | none => simp [sStep, sSucceeds, hc, hp]
    | some r =>
      by_cases hb : (s.processed + 1) % backupEveryS = 0 <;>
        simp [sStep, sSucceeds, hc, hp, hb]

lemma sStep_chunks (pset : List Str) (proc : Str → Option (Str × List Str))
    (s : SState) (fid : Str) :
    (sStep pset proc s fid).ledger.chunks
      = s.ledger.chunks
        ++ (if sSucceeds pset proc fid
            then [((proc fid).map Prod.snd).getD []] else []) := by
  by_cases hc : fid ∈ pset
  · simp [sStep, sSucceeds, hc]
  · cases hp : proc fid with
    | none => simp [sStep, sSucceeds, hc, hp]
    | some r =>
      by_cases hb : (s.processed + 1) % backupEveryS = 0 <;>
        simp [sStep, sSucceeds, hc, hp, hb]

lemma sRun_doc_id (pset : List Str) (proc : Str → Option (Str × List Str))
    (fileIds : List Str) :
    ∀ s : SState, (fileIds.foldl (sStep pset proc) s).ledger.doc_id
      = s.ledger.doc_id ++ fileIds.filter (sSucceeds pset proc) := by
  induction fileIds with
  | nil => intro s; simp
  | cons fid fileIds ih =>
    intro s
    rw [List.foldl_cons, ih, sStep_doc_id, List.filter_cons]
    by_cases h : sSucceeds pset proc fid <;> simp [h]

lemma sRun_summary (pset : List Str) (proc : Str → Option (Str × List Str))
    (fileIds : List Str) :
    ∀ s : SState, (fileIds.foldl (sStep pset proc) s).ledger.summary
      = s.ledger.summary
        ++ (fileIds.filter (sSucceeds pset proc)).map
            (fun fid => ((proc fid).map Prod.fst).getD []) := by
  induction fileIds with
  | nil => intro s; simp
  | cons fid fileIds ih =>
    intro s
    rw [List.foldl_cons, ih, sStep_summary, List.filter_cons]
    by_cases h : sSucceeds pset proc fid <;> simp [h]

lemma sRun_chunks (pset : List Str) (proc : Str → Option (Str × List Str))
    (fileIds : List Str) :
    ∀ s : SState, (fileIds.foldl (sStep pset proc) s).ledger.chunks
      = s.ledger.chunks
        ++ (fileIds.filter (sSucceeds pset proc)).map
            (fun fid => ((proc fid).map Prod.snd).getD []) := by
  induction fileIds with
  | nil => intro s; simp
  | cons fid fileIds ih =>
    intro s
    rw [List.foldl_cons, ih, sStep_chunks, List.filter_cons]
    by_cases h : sSucceeds pset proc fid <;> simp [h]

/-- Claim C7: a final durable checkpoint flush executes at every pipeline
termination, in both drivers, regardless of the oracles' outcomes — in
particular regardless of how many units failed (the per-unit handlers
catch every unit error, so the loop always completes and the final
`pickle.dump` always runs): the last event of every run is a flush. -/
theorem C7_final_flush (initQ : QLedger) (gen : Str → Str → List Str)
    (units : List (Str × Str)) (initS : SLedger)
    (proc : Str → Option (Str × List Str)) (fileIds : List Str) :
    (generateAllQuestions initQ gen units).events.getLast? = some QEvent.flush
    ∧ (extractData initS proc fileIds).events.getLast? = some SEvent.flush := by
  constructor
  · simp only [generateAllQuestions]
    exact getLast?_append_singleton _ _
  · simp only [extractData]
    exact getLast?_append_singleton _ _

/-- Claim C9: if the loaded checkpoint ledger is well-formed, then after a
run of either driver the ledger is still well-formed — a successful unit
appends one element to every parallel list of its ledger and a failed or
skipped unit appends to none, so `len(doc_id) == len(questions)` in the
questions ledger and `len(doc_id) == len(summary) == len(chunks)` in the
summaries ledger (arbitrary `units` covers every intermediate prefix of a
run). -/
theorem C9_ledger_wf (initQ : QLedger) (gen : Str → Str → List Str)
    (units : List (Str × Str)) (initS : SLedger)
    (proc : Str → Option (Str × List Str)) (fileIds : List Str)
    (hq : qWF initQ) (hs : sWF initS) :
    qWF (generateAllQuestions initQ gen units).ledger
    ∧ sWF (extractData initS proc fileIds).ledger := by
  constructor
  · have hd : (generateAllQuestions initQ gen units).ledger.doc_id
        = initQ.doc_id ++ (units.filter (qSucceeds initQ.doc_id gen)).map Prod.fst := by
      simp [generateAllQuestions, qRun_doc_id]
    have hqs : (generateAllQuestions initQ gen units).ledger.questions
        = initQ.questions
          ++ (units.filter (qSucceeds initQ.doc_id gen)).map (qGenResult gen) := by
      simp [generateAllQuestions, qRun_questions]
    unfold qWF at hq ⊢
    rw [hd, hqs]
    simp [hq]
  · have hd : (extractData initS proc fileIds).ledger.doc_id
        = initS.doc_id ++ fileIds.filter (sSucceeds initS.doc_id proc) := by
      simp [extractData, sRun_doc_id]
    have hsm : (extractData initS proc fileIds).ledger.summary
        = initS.summary
          ++ (fileIds.filter (sSucceeds initS.doc_id proc)).map
              (fun fid => ((proc fid).map Prod.fst).getD []) := by
      simp [extractData, sRun_summary]
    have hch : (extractData initS proc fileIds).ledger.chunks
        = initS.chunks
          ++ (fileIds.filter (sSucceeds initS.doc_id proc)).map
              (fun fid => ((proc fid).map Prod.snd).getD []) := by
      simp [extractData, sRun_chunks]
    unfold sWF at hs ⊢
    rw [hd, hsm, hch]
    simp only [List.length_append, List.length_map]
    omega

/-- Witness for C9 on a one-entry well-formed ledger pair and one fresh
unit each. -/
theorem C9_ledger_wf_witness :
    qWF (generateAllQuestions ⟨["A".toList], [["q".toList]]⟩
      (fun _ _ => ["the witness question here".toList])
      [("B".toList, "a long enough summary for the gate".toList)]).ledger := by
  have h := C9_ledger_wf ⟨["A".toList], [["q".toList]]⟩
    (fun _ _ => ["the witness question here".toList])
    [("B".toList, "a long enough summary for the gate".toList)]
    ⟨[], [], []⟩ (fun _ => none) []
    rfl ⟨rfl, rfl⟩
  exact h.1

lemma eq_of_fst_eq_of_nodup {α β : Type} :
    ∀ {l : List (α × β)}, (l.map Prod.fst).Nodup →
      ∀ {u v : α × β}, u ∈ l → v ∈ l → u.1 = v.1 → u = v := by
  intro l
  induction l with
  | nil => intro _ u v hu; cases hu
  | cons a l ih =>
    intro h u v hu hv he
    rw [List.map_cons, List.nodup_cons] at h
    rcases List.mem_cons.mp hu with rfl | hu2
    · rcases List.mem_cons.mp hv with rfl | hv2
      · rfl
      · exfalso
        apply h.1
        rw [he]
        exact List.mem_map_of_mem Prod.fst hv2
    · rcases List.mem_cons.mp hv with rfl | hv2
      · exfalso
        apply h.1
        rw [← he]
        exact List.mem_map_of_mem Prod.fst hu2
      · exact ih h.2 hu2 hv2 he

lemma QLedger_eq_of (a b : QLedger) (h1 : a.doc_id = b.doc_id)
    (h2 : a.questions = b.questions) : a = b := by
  cases a; cases b; simp_all

lemma upsertAll_apply (recs : List IxRecord) :
    ∀ (m : Str → Option IxRecord) (k : Str),
      upsertAll m recs k = (recs.reverse.find? (fun r => r.id == k)).or (m k) := by
  induction recs with
  | nil => intro m k; simp [upsertAll]
  | cons r rs ih =>
    intro m k
    have h1 : upsertAll m (r :: rs) = upsertAll (upsert1 m r) rs := rfl
    rw [h1, ih, List.reverse_cons, List.find?_append]
    cases hf : rs.reverse.find? (fun r2 => r2.id == k) with
    | some v => simp
    | none =>
      by_cases hk : k = r.id
      · simp [upsert1, hk]
      · have hne : (r.id == k) = false := by
          simp only [beq_eq_false_iff_ne, ne_eq]
          exact fun hn => hk hn.symm
        simp [upsert1, hk, hne]

lemma upsertAll_idem (m : Str → Option IxRecord) (recs : List IxRecord) :
    upsertAll (upsertAll m recs) recs = upsertAll m recs := by
  funext k
  rw [upsertAll_apply, upsertAll_apply]
  cases hf : recs.reverse.find? (fun r => r.id == k) <;> simp [hf]

/-- Claim C2: running `generate_all_questions` a second time over the same
work units, starting from the store produced by the first run, leaves the
store identical (no doc id appended twice); no doc id present in the
store is submitted to the generator again; every `record_id` derived from
the store (`f"{doc_id}::questions"`) is distinct; and the keyed upsert is
idempotent by construction — upserting the same record list twice equals
upserting it once. -/
theorem C2_idempotence (init : QLedger) (gen : Str → Str → List Str)
    (units : List (Str × Str))
    (hinit : init.doc_id.Nodup)
    (hunits : (units.map Prod.fst).Nodup) :
    (generateAllQuestions (generateAllQuestions init gen units).ledger gen
        units).ledger
      = (generateAllQuestions init gen units).ledger
    ∧ (∀ d ∈ (generateAllQuestions init gen units).ledger.doc_id,
        QEvent.genCall d ∉
          (generateAllQuestions (generateAllQuestions init gen units).ledger gen
            units).events)
    ∧ ((generateAllQuestions init gen units).ledger.doc_id.map recordIdQ).Nodup
    ∧ (∀ (m : Str → Option IxRecord) (recs : List IxRecord),
        upsertAll (upsertAll m recs) recs = upsertAll m recs) := by
  have hdoc1 : (generateAllQuestions init gen units).ledger.doc_id
      = init.doc_id ++ (units.filter (qSucceeds init.doc_id gen)).map Prod.fst := by
    simp [generateAllQuestions, qRun_doc_id]
  have hnil : units.filter
      (qSucceeds (generateAllQuestions init gen units).ledger.doc_id gen) = [] := by
    rw [List.filter_eq_nil]
    intro u hu hsu
    simp only [qSucceeds, Bool.and_eq_true, Bool.not_eq_true'] at hsu
    have hnotin : u.1 ∉ (generateAllQuestions init gen units).ledger.doc_id := by
      simpa using hsu.1
    have hnotinit : u.1 ∉ init.doc_id := fun h =>
      hnotin (hdoc1 ▸ List.mem_append.mpr (Or.inl h))
    have hsu1 : qSucceeds init.doc_id gen u = true := by
      simp only [qSucceeds, Bool.and_eq_true, Bool.not_eq_true']
      exact ⟨by simpa using hnotinit, hsu.2⟩
    apply hnotin
    rw [hdoc1]
    apply List.mem_append.mpr
    right
    exact List.mem_map_of_mem Prod.fst (List.mem_filter.mpr ⟨hu, hsu1⟩)
  obtain ⟨L1, hL1⟩ : ∃ L, (generateAllQuestions init gen units).ledger = L :=
    ⟨_, rfl⟩
  rw [hL1] at hdoc1 hnil ⊢
  refine ⟨?_, ?_, ?_, fun m recs => upsertAll_idem m recs⟩
  · have hd2 : (generateAllQuestions L1 gen units).ledger.doc_id
        = L1.doc_id ++ (units.filter (qSucceeds L1.doc_id gen)).map Prod.fst := by
      simp [generateAllQuestions, qRun_doc_id]
    have hq2 : (generateAllQuestions L1 gen units).ledger.questions
        = L1.questions
          ++ (units.filter (qSucceeds L1.doc_id gen)).map (qGenResult gen) := by
      simp [generateAllQuestions, qRun_questions]
    refine QLedger_eq_of _ _ ?_ ?_
    · rw [hd2, hnil]; simp
    · rw [hq2, hnil]; simp
  · intro d hd hmem
    have hev : (generateAllQuestions L1 gen units).events
        = (units.foldl (qStep L1.doc_id gen) ⟨L1, 0, 0, 0, []⟩).events
          ++ [QEvent.flush] := by
      simp [generateAllQuestions]
    rw [hev] at hmem
    have hmem2 : QEvent.genCall d ∈
        (units.foldl (qStep L1.doc_id gen) ⟨L1, 0, 0, 0, []⟩).events := by
      simpa using hmem
    rcases (qRun_events_genCall L1.doc_id gen units d _).mp hmem2 with
      h | ⟨u, _, hc, _, hud⟩
    · simp at h
    · rw [hud] at hc
      have : d ∉ L1.doc_id := by simpa using hc
      exact this hd
  · rw [hdoc1, List.map_append]
    have hinj : ∀ a b : Str, recordIdQ a = recordIdQ b → a = b := by
      intro a b h
      exact List.append_cancel_right h
    apply List.Nodup.append
    · exact hinit.map (fun a b => hinj a b)
    · have hsub : List.Sublist ((units.filter (qSucceeds init.doc_id gen)).map
          Prod.fst) (units.map Prod.fst) :=
        (List.filter_sublist units).map Prod.fst
      exact (hunits.sublist hsub).map (fun a b => hinj a b)
    · intro x hx hy
      rcases List.mem_map.mp hx with ⟨a, ha, rfl⟩
      rcases List.mem_map.mp hy with ⟨b, hb, hab⟩
      have hba : b = a := hinj b a hab
      rcases List.mem_map.mp hb with ⟨u, hu, hub⟩
      have hsu := List.of_mem_filter hu
      simp only [qSucceeds, Bool.and_eq_true, Bool.not_eq_true'] at hsu
      have : u.1 ∉ init.doc_id := by simpa using hsu.1
      exact this (hub ▸ hba ▸ ha)

/-- Witness for C2 on a concrete two-unit run: re-running from the first
run's ledger leaves the ledger unchanged. -/
theorem C2_idempotence_witness :
    (generateAllQuestions
        (generateAllQuestions ⟨[], []⟩
          (fun d _ => if d = "B".toList then [] else ["the same question again".toList])
          [("A".toList, "a long enough summary for processing".toList),
           ("B".toList, "another long enough summary here".toList)]).ledger
        (fun d _ => if d = "B".toList then [] else ["the same question again".toList])
        [("A".toList, "a long enough summary for processing".toList),
         ("B".toList, "another long enough summary here".toList)]).ledger
      = (generateAllQuestions ⟨[], []⟩
          (fun d _ => if d = "B".toList then [] else ["the same question again".toList])
          [("A".toList, "a long enough summary for processing".toList),
           ("B".toList, "another long enough summary here".toList)]).ledger := by
  have h := C2_idempotence ⟨[], []⟩
    (fun d _ => if d = "B".toList then [] else ["the same question again".toList])
    [("A".toList, "a long enough summary for processing".toList),
     ("B".toList, "another long enough summary here".toList)]
    (by decide) (by decide)
  exact h.1

lemma buildStepS_eq (acc : BuildOut) (u : Str × Str) :
    buildStepS acc u
      = if keepS u then
          { acc with
            texts := acc.texts ++ [pyStrip u.2],
            records := acc.records ++ [⟨recordIdS u.1, none, pyStrip u.2⟩] }
        else { acc with skipped := acc.skipped + 1 } := by
  simp only [buildStepS, keepS]
  split_ifs <;> simp_all

lemma buildRun_texts (docs : List (Str × Str)) :
    ∀ acc : BuildOut, (docs.foldl buildStepS acc).texts
      = acc.texts ++ (docs.filter keepS).map (fun u => pyStrip u.2) := by
  induction docs with
  | nil => intro acc; simp
  | cons u docs ih =>
    intro acc
    rw [List.foldl_cons, ih, buildStepS_eq, List.filter_cons]
    by_cases h : keepS u <;> simp [h]

lemma buildRun_records (docs : List (Str × Str)) :
    ∀ acc : BuildOut, (docs.foldl buildStepS acc).records
      = acc.records
        ++ (docs.filter keepS).map
            (fun u => (⟨recordIdS u.1, none, pyStrip u.2⟩ : IxRecord)) := by
  induction docs with
  | nil => intro acc; simp
  | cons u docs ih =>
    intro acc
    rw [List.foldl_cons, ih, buildStepS_eq, List.filter_cons]
    by_cases h : keepS u <;> simp [h]

lemma buildRun_skipped (docs : List (Str × Str)) :
    ∀ acc : BuildOut, (docs.foldl buildStepS acc).skipped
      = acc.skipped + docs.countP (fun u => !(keepS u)) := by
  induction docs with
  | nil => intro acc; simp
  | cons u docs ih =>
    intro acc
    rw [List.foldl_cons, ih, buildStepS_eq, List.countP_cons]
    by_cases h : keepS u <;> simp [h] <;> omega

lemma assignVecs_cons (p : Str × IxRecord) (ps : List (Str × IxRecord))
    (v : Vec) (vs : List Vec) :
    assignVecs (p :: ps) (v :: vs)
      = { p.2 with values := some v } :: assignVecs ps vs := by
  simp [assignVecs]

lemma assignVecs_nil_vecs (batch : List (Str × IxRecord)) :
    assignVecs batch [] = batch.map Prod.snd := by
  simp [assignVecs]

lemma assignVecs_ids (batch : List (Str × IxRecord)) :
    ∀ vecs : List Vec,
      (assignVecs batch vecs).map IxRecord.id = batch.map (fun p => p.2.id) := by
  induction batch with
  | nil => intro vecs; simp [assignVecs]
  | cons p ps ih =>
    intro vecs
    cases vecs with
    | nil => simp [assignVecs_nil_vecs]
    | cons v vs => simp [assignVecs_cons, ih vs]

lemma assignVecs_values (batch : List (Str × IxRecord)) :
    ∀ vecs : List Vec, batch.length ≤ vecs.length →
      ∀ r ∈ assignVecs batch vecs, r.values.isSome = true := by
  induction batch with
  | nil => intro vecs _ r hr; simp [assignVecs] at hr
  | cons p ps ih =>
    intro vecs hlen r hr
    cases vecs with
    | nil => simp at hlen
    | cons v vs =>
      rw [assignVecs_cons] at hr
      rcases List.mem_cons.mp hr with rfl | hr
      · rfl
      · exact ih vs (by simpa using Nat.le_of_succ_le_succ (by simpa using hlen)) r hr

lemma embedFold_error (embed : List Str → Except Unit (List Vec)) (e : Unit) :
    ∀ batches : List (List (Str × IxRecord)),
      batches.foldl (embedStep embed) (.error e) = .error e := by
  intro batches
  induction batches with
  | nil => rfl
  | cons b bs ih =>
    rw [List.foldl_cons]
    exact ih

lemma embedFold_values (embed : List Str → Except Unit (List Vec))
    (hlen : ∀ ts vs, embed ts = .ok vs → vs.length = ts.length) :
    ∀ (batches : List (List (Str × IxRecord))) (acc recs : List IxRecord),
      (∀ r ∈ acc, r.values.isSome = true) →
      batches.foldl (embedStep embed) (.ok acc) = .ok recs →
      ∀ r ∈ recs, r.values.isSome = true := by
  intro batches
  induction batches with
  | nil =>
    intro acc recs hacc h
    injection h with h2
    subst h2
    exact hacc
  | cons b bs ih =>
    intro acc recs hacc h
    rw [List.foldl_cons] at h
    cases he : embed (b.map Prod.fst) with
    | error e =>
      have hstep : embedStep embed (.ok acc) b = .error e := by
        simp [embedStep, he]
      rw [hstep, embedFold_error] at h
      cases h
    | ok vecs =>
      have hstep : embedStep embed (.ok acc) b
          = .ok (acc ++ assignVecs b vecs) := by
        simp [embedStep, he]
      rw [hstep] at h
      refine ih (acc ++ assignVecs b vecs) recs ?_ h
      intro r hr
      rcases List.mem_append.mp hr with hr | hr
      · exact hacc r hr
      · refine assignVecs_values b vecs ?_ r hr
        have hv := hlen (b.map Prod.fst) vecs he
        simp only [List.length_map] at hv
        omega

lemma embedFold_ids (embed : List Str → Except Unit (List Vec)) :
    ∀ (batches : List (List (Str × IxRecord))) (acc recs : List IxRecord),
      batches.foldl (embedStep embed) (.ok acc) = .ok recs →
      recs.map IxRecord.id
        = acc.map IxRecord.id ++ (batches.join).map (fun p => p.2.id) := by
  intro batches
  induction batches with
  | nil =>
    intro acc recs h
    injection h with h2
    subst h2
    simp
  | cons b bs ih =>
    intro acc recs h
    rw [List.foldl_cons] at h
    cases he : embed (b.map Prod.fst) with
    | error e =>
      have hstep : embedStep embed (.ok acc) b = .error e := by
        simp [embedStep, he]
      rw [hstep, embedFold_error] at h
      cases h
    | ok vecs =>
      have hstep : embedStep embed (.ok acc) b
          = .ok (acc ++ assignVecs b vecs) := by
        simp [embedStep, he]
      rw [hstep] at h
      have := ih (acc ++ assignVecs b vecs) recs h
      rw [this, List.map_append, assignVecs_ids]
      simp

/-- Claim C6 (counterexample): with an embedder that fails on its (single)
batch, the whole summaries indexing run terminates with the error — the
failure IS fatal to the run, contradicting "never fatal" (the script has
no retry, backoff, or per-unit surfacing around `embed_documents`). -/
theorem C6_counterexample :
    indexSummariesRun (fun _ => .error ())
      [("A".toList, "hello".toList)] = .error () := by
  rfl

/-- Claim C6 (amended): if the external embedding capability fails on one
batch, the whole batch fails and the error propagates — the indexing run
terminates with the error (fatal, no retry or per-unit containment); and
no record is ever upserted with a missing vector: on a successful run
every upserted record carries a vector, provided the embedder returns one
vector per input text. -/
theorem C6_embed_failure_amended (embed : List Str → Except Unit (List Vec))
    (docs : List (Str × Str))
    (hlen : ∀ ts vs, embed ts = .ok vs → vs.length = ts.length) :
    ∀ res : IxResult, indexSummariesRun embed docs = .ok res →
      res.upserted.all (fun r => r.values.isSome) = true := by
  intro res h
  unfold indexSummariesRun at h
  cases he : embedAll embed
      ((buildSummaryRecords docs).texts.zip (buildSummaryRecords docs).records) with
  | error e =>
    rw [he] at h
    cases h
  | ok recs =>
    rw [he] at h
    injection h with h2
    subst h2
    rw [List.all_eq_true]
    intro r hr
    have hr2 : r ∈ (chunked recs BATCH_UPSERT).join := hr
    rw [chunked_join] at hr2
    exact embedFold_values embed hlen _ [] recs (by intro r2 hr3; cases hr3)
      (by simpa [embedAll] using he) r hr2

/-- Witness for C6 (amended): a successful run with a unit-vector embedder
upserts only records carrying vectors. -/
theorem C6_embed_failure_amended_witness :
    (match indexSummariesRun (fun ts => .ok (ts.map (fun _ => ([0] : Vec))))
        [("B".toList, "another healthy summary".toList)] with
      | .ok res => res.upserted.all (fun r => r.values.isSome)
      | .error _ => false) = true := by
  have hok : exceptOk (indexSummariesRun
      (fun ts => .ok (ts.map (fun _ => ([0] : Vec))))
      [("B".toList, "another healthy summary".toList)]) = true := rfl
  cases hrun : indexSummariesRun (fun ts => .ok (ts.map (fun _ => ([0] : Vec))))
      [("B".toList, "another healthy summary".toList)] with
  | error e =>
    rw [hrun] at hok
    simp [exceptOk] at hok
  | ok res =>
    have hall := C6_embed_failure_amended
      (fun ts => .ok (ts.map (fun _ => ([0] : Vec))))
      [("B".toList, "another healthy summary".toList)]
      (by intro ts vs h; injection h with h2; rw [← h2]; simp)
      res hrun
    simp [hall]

lemma utf8Len_replicate (n : Nat) (c : Char) :
    utf8Len (List.replicate n c) = n * c.utf8Size := by
  induction n with
  | zero => simp [utf8Len]
  | succ n ih =>
    rw [List.replicate_succ]
    have hcons : utf8Len (c :: List.replicate n c)
        = c.utf8Size + utf8Len (List.replicate n c) := by
      simp [utf8Len]
    rw [hcons, ih, Nat.succ_mul]
    ring

lemma pyStrip_replicate_a (n : Nat) :
    pyStrip (List.replicate n 'a') = List.replicate n 'a' := by
  have h1 : ∀ m : Nat, (List.replicate m 'a').dropWhile Char.isWhitespace
      = List.replicate m 'a' := by
    intro m
    cases m with
    | zero => rfl
    | succ m =>
      rw [List.replicate_succ, List.dropWhile_cons]
      have : ('a').isWhitespace = false := by decide
      simp [this]
  unfold pyStrip
  rw [h1, List.reverse_replicate, h1, List.reverse_replicate]

/-- Claim C8: every summary artifact whose (stripped) text encodes to more
UTF-8 bytes than `MAX_DOC_BYTES` is rejected before any embedding call is
attempted for it: no record for it is built, its text reaches no embed
batch, it is counted as skipped, and it is never upserted. -/
theorem C8_byte_ceiling (embed : List Str → Except Unit (List Vec))
    (docs : List (Str × Str)) (d s : Str)
    (hmem : (d, s) ∈ docs)
    (hnd : (docs.map Prod.fst).Nodup)
    (hbig : MAX_DOC_BYTES < utf8Len (pyStrip s)) :
    recordIdS d ∉ (buildSummaryRecords docs).records.map IxRecord.id
    ∧ pyStrip s ∉ (buildSummaryRecords docs).texts
    ∧ 1 ≤ (buildSummaryRecords docs).skipped
    ∧ (∀ res : IxResult, indexSummariesRun embed docs = .ok res →
        recordIdS d ∉ res.upserted.map IxRecord.id) := by
  have hkeep : keepS (d, s) = false := by
    simp [keepS, hbig]
  have hrec : (buildSummaryRecords docs).records
      = (docs.filter keepS).map
          (fun u => (⟨recordIdS u.1, none, pyStrip u.2⟩ : IxRecord)) := by
    simpa [buildSummaryRecords] using buildRun_records docs ⟨[], [], 0⟩
  have htx : (buildSummaryRecords docs).texts
      = (docs.filter keepS).map (fun u => pyStrip u.2) := by
    simpa [buildSummaryRecords] using buildRun_texts docs ⟨[], [], 0⟩
  have hid_not : recordIdS d
      ∉ (buildSummaryRecords docs).records.map IxRecord.id := by
    rw [hrec, List.map_map]
    intro hx
    rcases List.mem_map.mp hx with ⟨u, hu, hid⟩
    have hu1 : u.1 = d := List.append_cancel_right hid
    have huu : u ∈ docs := List.mem_of_mem_filter hu
    have hud : u = (d, s) := eq_of_fst_eq_of_nodup hnd huu hmem hu1
    have hk := List.of_mem_filter hu
    rw [hud, hkeep] at hk
    cases hk
  refine ⟨hid_not, ?_, ?_, ?_⟩
  · rw [htx]
    intro hx
    rcases List.mem_map.mp hx with ⟨u, hu, hts⟩
    have hk := List.of_mem_filter hu
    simp only [keepS, Bool.and_eq_true, Bool.not_eq_true'] at hk
    have hk2 := hk.2
    rw [hts] at hk2
    simp only [decide_eq_false_iff_not] at hk2
    exact hk2 hbig
  · have hsk : (buildSummaryRecords docs).skipped
        = docs.countP (fun u => !(keepS u)) := by
      simpa [buildSummaryRecords] using buildRun_skipped docs ⟨[], [], 0⟩
    rw [hsk]
    have hpos : 0 < docs.countP (fun u => !(keepS u)) := by
      rw [List.countP_pos]
      exact ⟨(d, s), hmem, by simp [hkeep]⟩
    omega
  · intro res h
    unfold indexSummariesRun at h
    cases he : embedAll embed
        ((buildSummaryRecords docs).texts.zip
          (buildSummaryRecords docs).records) with
    | error e =>
      rw [he] at h
      cases h
    | ok recs =>
      rw [he] at h
      injection h with h2
      subst h2
      intro hx
      have hx2 : recordIdS d ∈ ((chunked recs BATCH_UPSERT).join).map IxRecord.id :=
        hx
      rw [chunked_join] at hx2
      have hids := embedFold_ids embed _ [] recs (by simpa [embedAll] using he)
      rw [List.map_nil, List.nil_append, chunked_join] at hids
      have hlen : (buildSummaryRecords docs).texts.length
          = (buildSummaryRecords docs).records.length := by
        rw [hrec, htx]
        simp
      have hzip : ((buildSummaryRecords docs).texts.zip
            (buildSummaryRecords docs).records).map (fun p => p.2.id)
          = (buildSummaryRecords docs).records.map IxRecord.id := by
        have hsnd : ((buildSummaryRecords docs).texts.zip
              (buildSummaryRecords docs).records).map Prod.snd
            = (buildSummaryRecords docs).records :=
          List.map_snd_zip _ _ (le_of_eq hlen.symm)
        calc ((buildSummaryRecords docs).texts.zip
              (buildSummaryRecords docs).records).map (fun p => p.2.id)
            = (((buildSummaryRecords docs).texts.zip
                (buildSummaryRecords docs).records).map Prod.snd).map
                  IxRecord.id := by rw [List.map_map]; rfl
          _ = (buildSummaryRecords docs).records.map IxRecord.id := by rw [hsnd]
      rw [hids, hzip] at hx2
      exact hid_not hx2

/-- Witness for C8: a single document whose summary is 3 500 001 copies of
the letter a (one byte each) is skipped by the record builder. -/
theorem C8_byte_ceiling_witness :
    1 ≤ (buildSummaryRecords
      [("A".toList, List.replicate 3500001 'a')]).skipped := by
  have hbig : MAX_DOC_BYTES < utf8Len (pyStrip (List.replicate 3500001 'a')) := by
    rw [pyStrip_replicate_a, utf8Len_replicate]
    have ha : ('a').utf8Size = 1 := by decide
    rw [ha, Nat.mul_one]
    decide
  have h := C8_byte_ceiling (fun _ => .error ())
    [("A".toList, List.replicate 3500001 'a')] "A".toList
    (List.replicate 3500001 'a')
    (List.mem_singleton.mpr rfl) (by decide) hbig
  exact h.2.2.1

/-- Claim C5 (counterexample): a fresh unit whose summary `"hi"` is below
the 20-character threshold is skipped without a generator call and absent
from the store, but the run counts it as FAILED (`failed = 1`,
`skipped = 0`), contradicting "counted as skipped, not counted as a
failure" — `skipped_count` only counts already-checkpointed units. -/
theorem C5_counterexample :
    (generateAllQuestions ⟨[], []⟩
      (fun _ _ => ["a valid generated question".toList])
      [("A".toList, "hi".toList)]).failed = 1
    ∧ (generateAllQuestions ⟨[], []⟩
      (fun _ _ => ["a valid generated question".toList])
      [("A".toList, "hi".toList)]).skipped = 0
    ∧ QEvent.genCall "A".toList ∉
        (generateAllQuestions ⟨[], []⟩
          (fun _ _ => ["a valid generated question".toList])
          [("A".toList, "hi".toList)]).events
    ∧ (generateAllQuestions ⟨[], []⟩
      (fun _ _ => ["a valid generated question".toList])
      [("A".toList, "hi".toList)]).ledger.doc_id = [] :=
  ⟨by decide, by decide, by decide, by decide⟩

/-- Claim C5 (amended): for every work unit whose source summary is empty
or not longer than 20 characters after stripping, the stage skips the
external generator call and the unit does not appear in the checkpoint
store; however it is logged as a warning and counted in the FAILED
counter, not the skipped counter — the skipped counter counts exactly the
already-checkpointed units. -/
theorem C5_amended (init : QLedger) (gen : Str → Str → List Str)
    (units : List (Str × Str)) (d m : Str)
    (hmem : (d, m) ∈ units)
    (hnew : d ∉ init.doc_id)
    (hnodup : (units.map Prod.fst).Nodup)
    (hshort : qCallGen m = false) :
    QEvent.genCall d ∉ (generateAllQuestions init gen units).events
    ∧ d ∉ (generateAllQuestions init gen units).ledger.doc_id
    ∧ 1 ≤ (generateAllQuestions init gen units).failed
    ∧ (generateAllQuestions init gen units).skipped
      = units.countP (fun u => init.doc_id.contains u.1) := by
  have hev : (generateAllQuestions init gen units).events
      = (units.foldl (qStep init.doc_id gen) ⟨init, 0, 0, 0, []⟩).events
        ++ [QEvent.flush] := by
    simp [generateAllQuestions]
  have hdoc : (generateAllQuestions init gen units).ledger.doc_id
      = init.doc_id ++ (units.filter (qSucceeds init.doc_id gen)).map Prod.fst := by
    simp [generateAllQuestions, qRun_doc_id]
  refine ⟨?_, ?_, ?_, ?_⟩
  · intro hmemEv
    rw [hev] at hmemEv
    have : QEvent.genCall d ∈
        (units.foldl (qStep init.doc_id gen) ⟨init, 0, 0, 0, []⟩).events := by
      simpa using hmemEv
    rcases (qRun_events_genCall init.doc_id gen units d _).mp this with
      h | ⟨u, hu, _, hcall, hud⟩
    · simp at h
    · have : u = (d, m) := eq_of_fst_eq_of_nodup hnodup hu hmem hud
      rw [this] at hcall
      rw [hshort] at hcall
      cases hcall
  · rw [hdoc]
    intro hmemDoc
    rcases List.mem_append.mp hmemDoc with h | h
    · exact hnew h
    · rcases List.mem_map.mp h with ⟨u, hu, hud⟩
      have huu : u ∈ units := List.mem_of_mem_filter hu
      have : u = (d, m) := eq_of_fst_eq_of_nodup hnodup huu hmem hud
      have hsu := List.of_mem_filter hu
      rw [this] at hsu
      simp only [qSucceeds, qGenResult, hshort, if_false, Bool.and_eq_true] at hsu
      simp at hsu
  · have hfail : (generateAllQuestions init gen units).failed
        = units.countP
            (fun u => !(init.doc_id.contains u.1) && (qGenResult gen u).isEmpty) := by
      simp [generateAllQuestions, qRun_failed]
    rw [hfail]
    have : 0 < units.countP
        (fun u => !(init.doc_id.contains u.1) && (qGenResult gen u).isEmpty) := by
      rw [List.countP_pos]
      refine ⟨(d, m), hmem, ?_⟩
      simp [qGenResult, hshort, hnew]
    omega
  · simp [generateAllQuestions, qRun_skipped]

/-- Witness for C5 (amended): the concrete short-summary unit of the
counterexample run is indeed counted among the failures. -/
theorem C5_amended_witness :
    1 ≤ (generateAllQuestions ⟨[], []⟩
      (fun _ _ => ["another generated question".toList])
      [("A".toList, "hi".toList)]).failed := by
  have h := C5_amended ⟨[], []⟩
    (fun _ _ => ["another generated question".toList])
    [("A".toList, "hi".toList)] "A".toList "hi".toList
    (by decide) (by decide) (by decide) (by decide)
  exact h.2.2.1

/-- Claim C3: for every list of items and every `max_count ≥ 1`,
`batch(items, max_count)` produces groups whose sizes sum to `len(items)`,
each group of size between 1 and `max_count` inclusive, and concatenating
the groups in order reproduces the input sequence (so the last group is
never empty and never dropped). -/
theorem C3_batch_invariant {α : Type} (items : List α) (maxCount : Nat)
    (h : 1 ≤ maxCount) :
    ((chunked items maxCount).map List.length).sum = items.length
    ∧ (∀ g ∈ chunked items maxCount, 1 ≤ g.length ∧ g.length ≤ maxCount)
    ∧ (chunked items maxCount).join = items := by
  refine ⟨?_, chunked_sizes items maxCount h, chunked_join items maxCount⟩
  have hj := chunked_join items maxCount
  calc ((chunked items maxCount).map List.length).sum
      = (chunked items maxCount).join.length := (List.length_join _).symm
    _ = items.length := by rw [hj]

/-- Witness for C3 at `items = [1,2,3,4,5]`, `max_count = 2`. -/
theorem C3_batch_invariant_witness :
    1 ≤ 2
    ∧ ((chunked [1, 2, 3, 4, 5] 2).map List.length).sum = [1, 2, 3, 4, 5].length
    ∧ (chunked [1, 2, 3, 4, 5] 2).join = [1, 2, 3, 4, 5] :=
  ⟨by decide, (C3_batch_invariant [1, 2, 3, 4, 5] 2 (by decide)).1,
    (C3_batch_invariant [1, 2, 3, 4, 5] 2 (by decide)).2.2⟩

/-- Claim C4 (counterexample): on the raw lines `["1. Foo", "- Foo", "2. Bar"]`
with `n = 5`, the normalization does NOT return `["Foo", "Bar"]` — the
stripped candidates have length 3, which fails the `len(q) > 10` filter of
`generate_questions_from_summary`. -/
theorem C4_counterexample :
    normalizeQuestions (["1. Foo", "- Foo", "2. Bar"].map String.toList) 5
      ≠ ["Foo".toList, "Bar".toList] := by
  decide

/-- Claim C4 (amended): on `["1. Foo", "- Foo", "2. Bar"]` with `n = 5` the
normalization returns `[]`, because the stripped candidates `"Foo"` and
`"Bar"` are not longer than 10 characters; on analogous lines whose
stripped text exceeds 10 characters, the duplicate is removed, markers are
stripped, and first-seen order is preserved. -/
theorem C4_amended :
    normalizeQuestions (["1. Foo", "- Foo", "2. Bar"].map String.toList) 5 = []
    ∧ normalizeQuestions
        (["1. Foofoofoofoo", "- Foofoofoofoo", "2. Barbarbarbar"].map String.toList) 5
      = ["Foofoofoofoo".toList, "Barbarbarbar".toList] :=
  ⟨by decide, by decide⟩

/-- Claim C10: the leading-marker trim strips every leading character drawn
from `{'-', '•', '0'..'9', '.', ' '}`, not only enumeration markers: a
question whose text itself begins with a year loses those leading
characters — `"2024 revenue figures for Q3?"` is stored as
`"revenue figures for Q3?"`, both with and without a genuine `"1. "`
bullet prefix. -/
theorem C10_over_stripping :
    normalizeQuestions ["2024 revenue figures for Q3?".toList] 5
      = ["revenue figures for Q3?".toList]
    ∧ normalizeQuestions ["1. 2024 revenue figures for Q3?".toList] 5
      = ["revenue figures for Q3?".toList]
    ∧ "2024 revenue figures for Q3?".toList ≠ "revenue figures for Q3?".toList :=
  ⟨by decide, by decide, by decide⟩

end Blueprint

